import Mathlib

/-!
Shallow embedding of serverless-s3-sync (src/index.js).

The plugin synchronizes local directories with S3 buckets.  We embed:
  * the JS-object parameter maps manipulated by getS3Params (src/index.js
    lines 85-107) as association lists in which later entries shadow
    earlier ones (the effect of Object.assign),
  * the per-target configuration entries of custom.s3Sync and the
    uploadDir / deleteDir parameter records built by sync() and clear(),
  * the sequential behaviour of sync() over the configuration array
    (validation throw inside Array.prototype.map, lines 52-71 and 117),
  * the progress handler (lines 121-131 and 166-176) as a fold over the
    sequence of progress events.

External collaborators (the s3 client, minimatch, the serverless CLI) are
abstracted: glob matching is an oracle on the glob text of each rule, and a
network operation is recorded as the parameter record the code hands to the
client.  JS numbers in the progress computation are embedded as exact
rationals.
-/

namespace S3Sync

/-- A JS object used as a parameter map: an association list of string keys
to string values, where a later pair shadows an earlier pair with the same
key (the semantics produced by successive Object.assign calls). -/
abbrev JSObj := List (String × String)

/-- First-some choice on optional values (the shape of a JS lookup chain). -/
def altOpt (x y : Option String) : Option String :=
  match x with
  | some v => some v
  | none => y

/-- Property read obj[k]: the value of the last pair whose key is k. -/
def JSObj.get : JSObj → String → Option String
  | [], _ => none
  | p :: rest, key => altOpt (JSObj.get rest key) (if p.1 = key then some p.2 else none)

/-- Property removal: delete obj[k] removes every pair bound to k. -/
def JSObj.del (o : JSObj) (k : String) : JSObj :=
  o.filter (fun p => !(p.1 == k))

/-- One entry of the per-target s.params array of the configuration: the
source reads the single key of the entry as the glob
(Object.keys(param)[0], line 91) and the value at that key as the
parameter object to merge. -/
abbrev Rule := String × JSObj

/-- JS truthiness of a string-or-undefined value: undefined and the empty
string are falsy. -/
def truthyOpt : Option String → Bool
  | none => false
  | some s => !(s == "")

/-- JS a || b on string-or-undefined values. -/
def jsOrStr (a b : Option String) : Option String :=
  if truthyOpt a then a else b

/-- One iteration of the forEach over s.params (lines 90-97): when the glob
matches (oracle m on the glob text), Object.assign the rule value into the
accumulator and refresh onlyForEnv from the merged map, keeping the old
value when the merged map holds no truthy OnlyForEnv
(onlyForEnv = s3Params[OnlyForEnv] || onlyForEnv, line 95). -/
def mergeStep (m : String → Bool) (acc : JSObj × Option String) (r : Rule) :
    JSObj × Option String :=
  if m r.1 then
    (acc.1 ++ r.2, jsOrStr (JSObj.get (acc.1 ++ r.2) "OnlyForEnv") acc.2)
  else acc

/-- The full forEach of getS3Params: fold over the rules in listed order
starting from the empty map and an undefined onlyForEnv. -/
def mergeRules (m : String → Bool) (rules : List Rule) : JSObj × Option String :=
  rules.foldl (mergeStep m) ([], none)

/-- getS3Params (lines 85-107).  sparams is s.params, with none embedding
any non-array value (the Array.isArray guard, line 89).  env is
this.options.env.  The result none embeds the SKIP callback cb(null, null);
some obj embeds cb(null, obj). -/
def getS3Params (env : Option String) (m : String → Bool)
    (sparams : Option (List Rule)) : Option JSObj :=
  match sparams with
  | some rules =>
      if truthyOpt (mergeRules m rules).2 && ((mergeRules m rules).2 != env) then
        none
      else
        some (JSObj.del (mergeRules m rules).1 "OnlyForEnv")
  | none => some []

/-- One entry of the custom.s3Sync configuration array.  An absent property
(read through hasOwnProperty in the source) is none; `rules` embeds the
s.params property, with none standing for any non-array value.  The field
bucketPfx embeds the bucketPrefix property of the source. -/
structure TargetConfig where
  bucketName : Option String
  localDir : Option String
  bucketPfx : Option String
  acl : Option String
  followSymlinks : Option Bool
  defaultContentType : Option String
  deleteRemoved : Option Bool
  rules : Option (List Rule)
deriving DecidableEq

/-- The validation of lines 69-71: sync throws when s.bucketName or
s.localDir is falsy. -/
def validTarget (s : TargetConfig) : Bool :=
  truthyOpt s.bucketName && truthyOpt s.localDir

/-- The parameter record sync() hands to client().uploadDir (lines 80-116),
omitting the getS3Params closure which is embedded separately. -/
structure UploadParams where
  maxAsyncS3 : Nat
  localDir : String
  deleteRemoved : Bool
  followSymlinks : Bool
  s3Bucket : String
  s3Pfx : String
  s3ACL : String
  defaultContentType : Option String
deriving DecidableEq

/-- Construction of the uploadDir parameters for one valid target:
defaults bucketPrefix to the empty string, acl to private, followSymlinks
to false, deleteRemoved to true; localDir is joined with the service path
([servicePath, s.localDir].join with a slash, line 78); maxAsyncS3 is the
literal 5 of line 81. -/
def buildUploadParams (sp : String) (s : TargetConfig) : UploadParams :=
  { maxAsyncS3 := 5
    localDir := sp ++ "/" ++ s.localDir.getD ""
    deleteRemoved := s.deleteRemoved.getD true
    followSymlinks := s.followSymlinks.getD false
    s3Bucket := s.bucketName.getD ""
    s3Pfx := s.bucketPfx.getD ""
    s3ACL := s.acl.getD "private"
    defaultContentType := s.defaultContentType }

/-- The sequential pass of sync() over the configuration array (the
Array.prototype.map of line 52).  Each valid entry synchronously invokes
client().uploadDir before the map moves on (the Promise executor of line 77
runs synchronously); the first invalid entry throws (line 70), aborting the
map, so entries after it are never processed.  The result records the
uploadDir invocations that were issued and the thrown message, if any. -/
def syncRun (sp : String) : List TargetConfig → List UploadParams × Option String
  | [] => ([], none)
  | s :: rest =>
    if validTarget s then
      ((buildUploadParams sp s) :: (syncRun sp rest).1, (syncRun sp rest).2)
    else
      ([], some "Invalid custom.s3Sync")

/-- The messagePrefix constant of line 9. -/
def msgPfx : String := "S3 Sync: "

/-- Observable outcome of a sync() invocation: console lines, uploadDir
invocations, and the synchronously thrown error, if any. -/
structure SyncOutcome where
  logs : List String
  uploads : List UploadParams
  error : Option String
deriving DecidableEq

/-- sync() (lines 43-143).  cfg embeds serverless.service.custom.s3Sync,
with none standing for any non-array value: in that case the function logs
No configuration found and resolves without touching the network
(lines 46-49). -/
def sync (sp : String) (cfg : Option (List TargetConfig)) : SyncOutcome :=
  match cfg with
  | none =>
      { logs := [msgPfx ++ "No configuration found"], uploads := [], error := none }
  | some targets =>
      { logs := [msgPfx ++ "Syncing directories and S3 prefixes..."]
        uploads := (syncRun sp targets).1
        error := (syncRun sp targets).2 }

/-- The parameter record clear() hands to client().deleteDir (lines
158-161): the Bucket is the raw s.bucketName property (possibly undefined)
and the Prefix defaults to the empty string. -/
structure DeleteParams where
  bucket : Option String
  pfx : String
deriving DecidableEq

/-- The per-entry body of the map in clear() (lines 152-161): no
validation, only the bucketPrefix default. -/
def clearEntry (s : TargetConfig) : DeleteParams :=
  { bucket := s.bucketName
    pfx := match s.bucketPfx with
           | some p => p
           | none => "" }

/-- The map of clear() over the configuration array: one deleteDir
invocation per entry, unconditionally. -/
def clearRun (targets : List TargetConfig) : List DeleteParams :=
  targets.map clearEntry

/-- clear() (lines 145-188): a non-array configuration resolves at once
with no deleteDir invocation (lines 147-149). -/
def clear (cfg : Option (List TargetConfig)) : List DeleteParams :=
  match cfg with
  | none => []
  | some targets => clearRun targets

/-- JS Math.round on an exact rational: the integer nearest the argument,
halves rounding toward positive infinity. -/
def jsRound (q : ℚ) : ℤ := ⌊q + 1 / 2⌋

/-- The decile computation of the progress handler (line 126):
Math.round((progressAmount / progressTotal) * 10) * 10, with the byte
counters embedded as naturals and the division exact. -/
def decileOf (amount total : ℕ) : ℤ :=
  jsRound ((amount : ℚ) / (total : ℚ) * 10) * 10

/-- The progress handler (lines 121-131) folded over a list of observed
(progressAmount, progressTotal) pairs, threading the percent variable
(initially 0) and collecting the emitted ticks (the printDot calls): an
event with total 0 is ignored; otherwise a tick fires exactly when the
computed decile exceeds the stored percent, which is then updated. -/
def progressTicks : ℤ → List (ℕ × ℕ) → List ℤ
  | _, [] => []
  | percent, e :: rest =>
    if e.2 = 0 then
      progressTicks percent rest
    else if percent < decileOf e.1 e.2 then
      decileOf e.1 e.2 :: progressTicks (decileOf e.1 e.2) rest
    else
      progressTicks percent rest

/-- One upload job: the handler starts from percent = 0 (line 121). -/
def progressRun (events : List (ℕ × ℕ)) : List ℤ :=
  progressTicks 0 events

/-- Modelled from the spec: the decile the specification describes, the
fraction amount/total rounded DOWN to the nearest 10 percent bucket
(floor of (amount/total)*10, times 10).  Stated only to be compared with
decileOf, the computation the code performs. -/
def specFloorDecile (amount total : ℕ) : ℤ :=
  ⌊(amount : ℚ) / (total : ℚ) * 10⌋ * 10

/-- Sample configuration entries used by concrete instantiations below. -/
def sampleValid : TargetConfig :=
  { bucketName := some "my-bucket"
    localDir := some "www"
    bucketPfx := none
    acl := none
    followSymlinks := none
    defaultContentType := none
    deleteRemoved := none
    rules := none }

/-- A target with bucketName absent: sync() rejects it, clear() does not. -/
def sampleInvalid : TargetConfig :=
  { bucketName := none
    localDir := some "www"
    bucketPfx := some "assets"
    acl := none
    followSymlinks := none
    defaultContentType := none
    deleteRemoved := none
    rules := none }

/-- The parameter objects of the rules whose glob the matcher accepts, in
listed order. -/
def matchingObjs (m : String → Bool) (rules : List Rule) : List JSObj :=
  (rules.filter (fun r => m r.1)).map Prod.snd

/-- The value the last object defining a key gives it, across a list of
objects in listed order: the natural reading of last-match-wins. -/
def lastVal : List JSObj → String → Option String
  | [], _ => none
  | o :: rest, k => altOpt (lastVal rest k) (JSObj.get o k)

theorem altOpt_assoc (x y z : Option String) :
    altOpt (altOpt x y) z = altOpt x (altOpt y z) := by
  cases x <;> rfl

theorem altOpt_none_right (x : Option String) : altOpt x none = x := by
  cases x <;> rfl

theorem JSObj.get_append (a b : JSObj) (k : String) :
    JSObj.get (a ++ b) k = altOpt (JSObj.get b k) (JSObj.get a k) := by
  induction a with
  | nil => simp [JSObj.get, altOpt_none_right]
  | cons p a ih =>
      simp only [List.cons_append, JSObj.get, List.append_eq, ih, altOpt_assoc]

theorem mergeRules_fst_general (m : String → Bool) (rules : List Rule)
    (acc : JSObj × Option String) :
    (rules.foldl (mergeStep m) acc).1 =
      (matchingObjs m rules).foldl (· ++ ·) acc.1 := by
  induction rules generalizing acc with
  | nil => rfl
  | cons r rest ih =>
      by_cases hm : m r.1
      · simp only [List.foldl_cons, matchingObjs, List.filter_cons, hm, List.map_cons,
          mergeStep, if_pos hm]
        exact ih _
      · simp only [List.foldl_cons, matchingObjs, List.filter_cons, hm, Bool.false_eq_true,
          if_false, mergeStep, if_neg hm]
        exact ih _

theorem get_foldl_append (objs : List JSObj) (o : JSObj) (k : String) :
    JSObj.get (objs.foldl (· ++ ·) o) k = altOpt (lastVal objs k) (JSObj.get o k) := by
  induction objs generalizing o with
  | nil => simp [lastVal, altOpt]
  | cons ob rest ih =>
      simp only [List.foldl_cons, lastVal, ih, JSObj.get_append, altOpt_assoc]

theorem JSObj.get_del_self (o : JSObj) (k : String) :
    JSObj.get (JSObj.del o k) k = none := by
  induction o with
  | nil => rfl
  | cons p rest ih =>
      by_cases h : p.1 = k
      · simpa [JSObj.del, List.filter_cons, h] using ih
      · have hb : (p.1 == k) = false := by simpa using h
        have ih2 : JSObj.get (List.filter (fun p => !(p.1 == k)) rest) k = none := by
          simpa [JSObj.del] using ih
        simp [JSObj.del, List.filter_cons, hb, JSObj.get, ih2, altOpt, h]

theorem progressTicks_gt (events : List (ℕ × ℕ)) :
    ∀ (p : ℤ), ∀ x ∈ progressTicks p events, p < x := by
  induction events with
  | nil => intro p x hx; simp [progressTicks] at hx
  | cons e rest ih =>
      intro p x hx
      by_cases h0 : e.2 = 0
      · exact ih p x (by simpa [progressTicks, h0] using hx)
      · by_cases hlt : p < decileOf e.1 e.2
        · rw [progressTicks, if_neg h0, if_pos hlt] at hx
          rcases List.mem_cons.mp hx with rfl | hx2
          · exact hlt
          · exact lt_trans hlt (ih _ x hx2)
        · exact ih p x (by simpa [progressTicks, h0, hlt] using hx)

theorem progressTicks_pairwise (events : List (ℕ × ℕ)) :
    ∀ (p : ℤ), (progressTicks p events).Pairwise (· < ·) := by
  induction events with
  | nil => intro p; simp [progressTicks]
  | cons e rest ih =>
      intro p
      by_cases h0 : e.2 = 0
      · simpa [progressTicks, h0] using ih p
      · by_cases hlt : p < decileOf e.1 e.2
        · rw [progressTicks, if_neg h0, if_pos hlt]
          exact List.pairwise_cons.mpr ⟨progressTicks_gt rest _, ih _⟩
        · simpa [progressTicks, h0, hlt] using ih p

theorem progressTicks_decile_form (events : List (ℕ × ℕ)) :
    ∀ (p : ℤ), ∀ x ∈ progressTicks p events, ∃ e ∈ events, e.2 ≠ 0 ∧ x = decileOf e.1 e.2 := by
  induction events with
  | nil => intro p x hx; simp [progressTicks] at hx
  | cons e rest ih =>
      intro p x hx
      by_cases h0 : e.2 = 0
      · obtain ⟨f, hf, hx2⟩ := ih p x (by simpa [progressTicks, h0] using hx)
        exact ⟨f, List.mem_cons_of_mem e hf, hx2⟩
      · by_cases hlt : p < decileOf e.1 e.2
        · rw [progressTicks, if_neg h0, if_pos hlt] at hx
          rcases List.mem_cons.mp hx with rfl | hx2
          · exact ⟨e, List.mem_cons_self e rest, h0, rfl⟩
          · obtain ⟨f, hf, hx3⟩ := ih _ x hx2
            exact ⟨f, List.mem_cons_of_mem e hf, hx3⟩
        · obtain ⟨f, hf, hx2⟩ := ih p x (by simpa [progressTicks, h0, hlt] using hx)
          exact ⟨f, List.mem_cons_of_mem e hf, hx2⟩

theorem progressTicks_all_zero (events : List (ℕ × ℕ)) :
    ∀ (p : ℤ), (∀ e ∈ events, e.2 = 0) → progressTicks p events = [] := by
  induction events with
  | nil => intro p _; rfl
  | cons e rest ih =>
      intro p h
      have h0 : e.2 = 0 := h e (List.mem_cons_self e rest)
      rw [progressTicks, if_pos h0]
      exact ih p (fun f hf => h f (List.mem_cons_of_mem e hf))

theorem decileOf_eq_natDiv (amount total : ℕ) (h : 0 < total) :
    decileOf amount total = (((20 * amount + total) / (2 * total) : ℕ) : ℤ) * 10 := by
  unfold decileOf jsRound
  congr 1
  have ht : (total : ℚ) ≠ 0 := Nat.cast_ne_zero.mpr h.ne'
  have key : (amount : ℚ) / (total : ℚ) * 10 + 1 / 2
      = ((20 * amount + total : ℕ) : ℚ) / ((2 * total : ℕ) : ℚ) := by
    push_cast
    field_simp
    ring
  rw [key, Rat.floor_natCast_div_natCast]
  exact (Int.ofNat_tdiv _ _).symm

/-- C5: for every file and ordered rule list, rules whose glob matches the
file are shallow-merged in listed order into the accumulated params, so
that on any key collision the last matching rule holding the key wins: for
every key, the merged accumulator of getS3Params gives the value assigned
by the last matching rule that defines it. -/
theorem c5_last_match_wins (m : String → Bool) (rules : List Rule) (k : String) :
    JSObj.get (mergeRules m rules).1 k = lastVal (matchingObjs m rules) k := by
  unfold mergeRules
  rw [mergeRules_fst_general, get_foldl_append]
  simp [JSObj.get, altOpt_none_right]

/-- C6: whenever getS3Params answers with a params mapping (not SKIP), the
mapping does not contain the OnlyForEnv key: it is deleted before the
callback hands the parameters to the uploader. -/
theorem c6_onlyForEnv_stripped (env : Option String) (m : String → Bool)
    (sparams : Option (List Rule)) (obj : JSObj)
    (h : getS3Params env m sparams = some obj) :
    JSObj.get obj "OnlyForEnv" = none := by
  cases sparams with
  | none =>
      have : obj = [] := by simpa [getS3Params] using h.symm
      rw [this]; rfl
  | some rules =>
      simp only [getS3Params] at h
      by_cases hc : (truthyOpt (mergeRules m rules).2 && ((mergeRules m rules).2 != env)) = true
      · rw [if_pos hc] at h; cases h
      · rw [if_neg hc] at h
        rw [(Option.some.inj h).symm]
        exact JSObj.get_del_self _ _

/-- C2: after processing all rules, getS3Params answers SKIP (the callback
receives a null params object) exactly when the resolved onlyForEnv value
is a set, truthy string different from the active environment; in every
other case it answers the merged params (with the OnlyForEnv key
deleted). -/
theorem c2_env_gating (env : Option String) (m : String → Bool) (rules : List Rule) :
    (getS3Params env m (some rules) = none ↔
      ∃ v, (mergeRules m rules).2 = some v ∧ v ≠ "" ∧ some v ≠ env) ∧
    (∀ obj, getS3Params env m (some rules) = some obj →
      obj = JSObj.del (mergeRules m rules).1 "OnlyForEnv") := by
  simp only [getS3Params]
  by_cases hc : (truthyOpt (mergeRules m rules).2 && ((mergeRules m rules).2 != env)) = true
  · rw [if_pos hc]
    refine ⟨⟨fun _ => ?_, fun _ => rfl⟩, fun obj hobj => by cases hobj⟩
    rw [Bool.and_eq_true] at hc
    obtain ⟨ht, hne⟩ := hc
    cases hv : (mergeRules m rules).2 with
    | none => rw [hv] at ht; simp [truthyOpt] at ht
    | some v =>
        refine ⟨v, rfl, ?_, ?_⟩
        · rw [hv] at ht; simpa [truthyOpt] using ht
        · rw [hv] at hne; simpa using hne
  · rw [if_neg hc]
    refine ⟨⟨(fun h => by cases h), ?_⟩, fun obj hobj => (Option.some.inj hobj).symm⟩
    rintro ⟨v, hv, hne, hneq⟩
    exact absurd (by rw [hv]; simp [truthyOpt, hne, hneq]) hc

/-- C10: when the host supplies no env option, any file whose rules resolve
a truthy OnlyForEnv value is skipped, because the set value can never equal
the undefined environment. -/
theorem c10_undefined_env_skips (m : String → Bool) (rules : List Rule) (v : String)
    (h1 : (mergeRules m rules).2 = some v) (h2 : v ≠ "") :
    getS3Params none m (some rules) = none := by
  simp only [getS3Params]
  rw [if_pos]
  rw [h1]
  simp [truthyOpt, h2]

/-- C2 witness: with active env prod and one matching rule carrying
OnlyForEnv prod, resolution answers the merged map with the key deleted. -/
theorem c2_witness :
    getS3Params (some "prod") (fun _ => true)
        (some [("*", [("OnlyForEnv", "prod"), ("k", "v")])]) = some [("k", "v")] ∧
    [("k", "v")] =
      JSObj.del (mergeRules (fun _ => true)
        [("*", [("OnlyForEnv", "prod"), ("k", "v")])]).1 "OnlyForEnv" :=
  ⟨by decide,
   (c2_env_gating (some "prod") (fun _ => true)
      [("*", [("OnlyForEnv", "prod"), ("k", "v")])]).2 [("k", "v")] (by decide)⟩

/-- C6 witness: the concrete resolved map carries no OnlyForEnv key. -/
theorem c6_witness : JSObj.get [("k", "v")] "OnlyForEnv" = none :=
  c6_onlyForEnv_stripped (some "prod") (fun _ => true)
    (some [("*", [("OnlyForEnv", "prod"), ("k", "v")])]) [("k", "v")] (by decide)

/-- C10 witness: with no env option, a matching rule carrying OnlyForEnv
prod makes resolution answer SKIP. -/
theorem c10_witness :
    getS3Params none (fun _ => true) (some [("*", [("OnlyForEnv", "prod")])]) = none :=
  c10_undefined_env_skips (fun _ => true) [("*", [("OnlyForEnv", "prod")])] "prod"
    (by decide) (by decide)

/-- C1 (amended): when some target of the configuration array is missing
bucketName or localDir, sync throws synchronously upon reaching the FIRST
invalid target, so no uploadDir is issued for it or for any later target;
but the map has already issued one uploadDir invocation for each valid
target before it in the array. -/
theorem c1_failfast_after_earlier_targets (sp : String) (ts : List TargetConfig)
    (h : ∃ s ∈ ts, validTarget s = false) :
    (syncRun sp ts).2 = some "Invalid custom.s3Sync" ∧
    (syncRun sp ts).1 = (ts.takeWhile validTarget).map (buildUploadParams sp) := by
  induction ts with
  | nil => simp at h
  | cons s rest ih =>
      by_cases hv : validTarget s = true
      · have h2 : ∃ x ∈ rest, validTarget x = false := by
          obtain ⟨x, hx, hxf⟩ := h
          rcases List.mem_cons.mp hx with rfl | hx2
          · rw [hv] at hxf; cases hxf
          · exact ⟨x, hx2, hxf⟩
        obtain ⟨e2, e1⟩ := ih h2
        refine ⟨by simpa [syncRun, hv] using e2, ?_⟩
        simp [syncRun, hv, List.takeWhile_cons, e1]
      · have hv2 : validTarget s = false := by simpa using hv
        exact ⟨by simp [syncRun, hv2], by simp [syncRun, hv2, List.takeWhile_cons]⟩

/-- C1 counterexample: a configuration whose second target is missing
bucketName still issues the uploadDir invocation for the first, valid
target before the validation throw, refuting the claim that no upload is
performed for any target of the invocation. -/
theorem c1_counterexample :
    validTarget sampleInvalid = false ∧
    (syncRun "/srv" [sampleValid, sampleInvalid]).2 = some "Invalid custom.s3Sync" ∧
    (syncRun "/srv" [sampleValid, sampleInvalid]).1 = [buildUploadParams "/srv" sampleValid] := by
  refine ⟨rfl, ?_, ?_⟩ <;> decide

/-- C1 witness: the amended statement at the concrete two-target
configuration. -/
theorem c1_witness :
    (syncRun "/srv" [sampleValid, sampleInvalid]).2 = some "Invalid custom.s3Sync" ∧
    (syncRun "/srv" [sampleValid, sampleInvalid]).1 =
      (([sampleValid, sampleInvalid]).takeWhile validTarget).map (buildUploadParams "/srv") :=
  c1_failfast_after_earlier_targets "/srv" [sampleValid, sampleInvalid]
    ⟨sampleInvalid, by decide, by decide⟩

/-- C3 (amended): for every progress event with total > 0, the decile is
the fraction amount/total scaled to tenths and rounded to the NEAREST 10
percent bucket, halves upward (Math.round, line 126), equivalently the
truncated quotient (20*amount + total) div (2*total), times 10 — not the
floor of (amount/total)*10. -/
theorem c3_decile_rounds_to_nearest (amount total : ℕ) (h : 0 < total) :
    decileOf amount total = (((20 * amount + total) / (2 * total) : ℕ) : ℤ) * 10 :=
  decileOf_eq_natDiv amount total h

/-- C3 counterexample: at amount 11 of total 20 the code reports decile 60
(round of 5.5 is 6) while the claimed floor rule yields 50. -/
theorem c3_counterexample :
    decileOf 11 20 = 60 ∧ specFloorDecile 11 20 = 50 ∧
    decileOf 11 20 ≠ specFloorDecile 11 20 := by
  have h1 : decileOf 11 20 = 60 := by
    rw [decileOf_eq_natDiv 11 20 (by norm_num)]
    norm_num
  have h2 : specFloorDecile 11 20 = 50 := by
    unfold specFloorDecile
    have key : ((11 : ℕ) : ℚ) / ((20 : ℕ) : ℚ) * 10 = ((110 : ℕ) : ℚ) / ((20 : ℕ) : ℚ) := by
      norm_num
    rw [key, Rat.floor_natCast_div_natCast]
    norm_num
  exact ⟨h1, h2, by rw [h1, h2]; decide⟩

/-- C3 witness: the amended statement evaluated at amount 11, total 20. -/
theorem c3_witness : decileOf 11 20 = 60 := by
  have h := c3_decile_rounds_to_nearest 11 20 (by norm_num)
  norm_num at h
  exact h

/-- C4: within one job the emitted ticks are strictly increasing (so no
decile is ever emitted twice or after a higher one), every tick is a
positive multiple of ten, and a job whose events all carry total 0 emits no
tick at all. -/
theorem c4_ticks_strictly_increasing (events : List (ℕ × ℕ)) :
    (progressRun events).Pairwise (· < ·) ∧
    (∀ x ∈ progressRun events, 0 < x ∧ (10 : ℤ) ∣ x) ∧
    ((∀ e ∈ events, e.2 = 0) → progressRun events = []) := by
  refine ⟨progressTicks_pairwise events 0, ?_, progressTicks_all_zero events 0⟩
  intro x hx
  refine ⟨progressTicks_gt events 0 x hx, ?_⟩
  obtain ⟨e, _, _, rfl⟩ := progressTicks_decile_form events 0 x hx
  exact dvd_mul_left 10 _

/-- C4 witness: a job of zero-total events emits nothing. -/
theorem c4_witness : progressRun [(3, 0), (7, 0)] = [] :=
  (c4_ticks_strictly_increasing [(3, 0), (7, 0)]).2.2 (by decide)

/-- C7: a non-array configuration makes sync a successful no-op logging No
configuration found with no uploadDir invocation, and makes clear a
successful no-op with no deleteDir invocation. -/
theorem c7_no_configuration_noop (sp : String) :
    (sync sp none).uploads = [] ∧ (sync sp none).error = none ∧
    (sync sp none).logs = [msgPfx ++ "No configuration found"] ∧
    clear none = [] :=
  ⟨rfl, rfl, rfl, rfl⟩

/-- C8 (amended): every uploadDir invocation sync issues carries the
concurrency limit maxAsyncS3 = 5; the limit is the literal of line 81, not
configurable from the target configuration. -/
theorem c8_concurrency_fixed_at_five (sp : String) (ts : List TargetConfig)
    (a : UploadParams) (ha : a ∈ (syncRun sp ts).1) : a.maxAsyncS3 = 5 := by
  induction ts with
  | nil => simp [syncRun] at ha
  | cons s rest ih =>
      by_cases hv : validTarget s = true
      · simp only [syncRun, hv, if_true] at ha
        rcases List.mem_cons.mp ha with rfl | ha2
        · rfl
        · exact ih ha2
      · simp [syncRun, hv] at ha

/-- C8 counterexample: the concurrency limit is not configurable — no
configuration entry can make the uploadDir parameters carry a limit other
than 5, refuting the configurability part of the claim. -/
theorem c8_counterexample :
    ¬ ∃ (sp : String) (s : TargetConfig), (buildUploadParams sp s).maxAsyncS3 ≠ 5 := by
  rintro ⟨sp, s, h⟩
  exact h rfl

/-- C8 witness: the upload issued for the sample target carries limit 5. -/
theorem c8_witness : (buildUploadParams "/srv" sampleValid).maxAsyncS3 = 5 :=
  c8_concurrency_fixed_at_five "/srv" [sampleValid]
    (buildUploadParams "/srv" sampleValid) (by decide)

/-- C9: clear performs no validation: for every configuration array, every
entry — also one missing bucketName or localDir — yields exactly one
deleteDir request built from the raw bucketName (possibly undefined) and
the defaulted bucketPrefix, and no error is ever thrown. -/
theorem c9_clear_skips_validation (ts : List TargetConfig) (i : ℕ) :
    (clearRun ts).length = ts.length ∧
    (clearRun ts)[i]? = (ts[i]?).map (fun s =>
      { bucket := s.bucketName, pfx := s.bucketPfx.getD "" }) := by
  refine ⟨by simp [clearRun], ?_⟩
  simp only [clearRun, List.getElem?_map]
  cases hget : ts[i]? with
  | none => rfl
  | some s => cases hb : s.bucketPfx <;> simp [clearEntry, hb]

/-- C9 witness: clear issues a deleteDir request for a target that sync
would reject, with an undefined Bucket. -/
theorem c9_witness :
    (clearRun [sampleInvalid]).length = 1 ∧
    (clearRun [sampleInvalid])[0]? = some { bucket := none, pfx := "assets" } :=
  ⟨(c9_clear_skips_validation [sampleInvalid] 0).1,
   (c9_clear_skips_validation [sampleInvalid] 0).2⟩

end S3Sync
